import Mathlib

/-!
Verification of the WM-assistant support knowledge-base engine.

This file gives a shallow embedding, in Lean 4, of the retrieval/ranking
engine of the repository (`src/backend/src/services/support_db_service.py`),
of the entry model (`src/backend/src/models/support_entry.py`) and of the
confidence computation of the chat orchestration
(`src/backend/src/api/chat_endpoints.py`), together with theorems settling
the specification claims about them.

Modelling conventions:
* Python strings are embedded as `List Char`; `str.lower`, `str.strip`,
  `str.split` and the substring operator `in` are modelled on ASCII text by
  `pyLower`, `pyStrip`, `pySplit` and `isSub`.
* Python `list[:limit]` slicing (including negative limits) is `pySliceTo`.
* Python's stable `list.sort(key=..., reverse=True)` is modelled by
  `List.insertionSort` with the relation `scoreGE` (descending by score);
  stability and sortedness of this model are proved, which is exactly the
  characterisation of Python's stable descending sort.
* The JSON file read by `load_database` is modelled as an `Option JValue`
  argument (`none` = file missing, `some v` = parsed JSON value); pydantic
  construction of a `SupportEntry` from a JSON object is modelled by
  `mkSupportEntry`, which distinguishes a validation failure on a JSON
  object (the source logs a warning and skips the element) from a non-object
  element (where the source's warning log line `item.get(...)` itself
  raises, so the whole load aborts with failure).
-/

namespace WM

/-- Python whitespace characters (ASCII range), as used by `str.strip` and
`str.split` with no arguments. -/
def isPySpace (c : Char) : Bool :=
  c = ' ' ∨ c = '\t' ∨ c = '\n' ∨ c = '\r' ∨ c = '\x0b' ∨ c = '\x0c'

/-- Model of Python `str.lower` on ASCII text. -/
def pyLower (s : List Char) : List Char :=
  s.map Char.toLower

/-- Model of Python `str.strip()`: remove leading and trailing whitespace. -/
def pyStrip (s : List Char) : List Char :=
  ((s.dropWhile isPySpace).reverse.dropWhile isPySpace).reverse

/-- Model of the Python substring test `needle in haystack`. -/
def isSub (needle haystack : List Char) : Bool :=
  haystack.tails.any (fun t => needle.isPrefixOf t)

/-- Helper for `pySplit`: accumulates the current (reversed) token. -/
def pySplitAux : List Char → List Char → List (List Char)
  | [], acc => if acc.isEmpty then [] else [acc.reverse]
  | c :: cs, acc =>
    if isPySpace c then
      if acc.isEmpty then pySplitAux cs [] else acc.reverse :: pySplitAux cs []
    else pySplitAux cs (c :: acc)

/-- Model of Python `str.split()` (no argument): split on runs of
whitespace, discarding empty tokens. -/
def pySplit (s : List Char) : List (List Char) :=
  pySplitAux s []

/-- Model of the Python slice `l[:n]` for an arbitrary (possibly negative)
integer `n`: a negative `n` removes the last `|n|` elements. -/
def pySliceTo (l : List α) (n : Int) : List α :=
  if n < 0 then l.take (l.length - n.natAbs) else l.take n.toNat

/-- Model of Python `sep.join(parts)`. -/
def joinSep (sep : List Char) : List (List Char) → List Char
  | [] => []
  | [x] => x
  | x :: y :: xs => x ++ sep ++ joinSep sep (y :: xs)

/-- Embedding of the `SupportEntry` pydantic model
(`src/backend/src/models/support_entry.py`), restricted to the fields the
claims depend on (`id`, `title`, `category`, `keywords`, `content`, `url`);
the optional V2 metadata fields are not loaded by any claim-relevant path.
The stored values are the post-validator ones (title/content stripped,
keywords stripped and non-empty ones kept). -/
structure SupportEntry where
  id : List Char
  title : List Char
  category : List Char
  keywords : List (List Char)
  content : List Char
  url : Option (List Char)
deriving DecidableEq

/-- JSON values, as produced by `json.load` over the knowledge-base file. -/
inductive JValue where
  | jnull : JValue
  | jbool (b : Bool) : JValue
  | jnum (n : Int) : JValue
  | jstr (s : List Char) : JValue
  | jarr (items : List JValue) : JValue
  | jobj (fields : List (List Char × JValue)) : JValue

/-- A JSON object (Python dict after parsing)? -/
def isJObj : JValue → Bool
  | JValue.jobj _ => true
  | _ => false

/-- A JSON array? -/
def isJArr : JValue → Bool
  | JValue.jarr _ => true
  | _ => false

/-- Lookup of a key in a parsed JSON object (Python dicts have unique keys
after parsing; a later duplicate key would have overwritten an earlier one,
so the last binding wins). -/
def jlookup (k : List Char) : List (List Char × JValue) → Option JValue
  | [] => none
  | (k', v) :: rest =>
    match jlookup k rest with
    | some r => some r
    | none => if k' = k then some v else none

/-- Extract a JSON string field. -/
def getStrField (fields : List (List Char × JValue)) (k : List Char) :
    Option (List Char) :=
  match jlookup k fields with
  | some (JValue.jstr s) => some s
  | _ => none

/-- Extract a JSON array-of-strings field. -/
def getStrListField (fields : List (List Char × JValue)) (k : List Char) :
    Option (List (List Char)) :=
  match jlookup k fields with
  | some (JValue.jarr items) =>
    items.mapM (fun it =>
      match it with
      | JValue.jstr s => some s
      | _ => none)
  | _ => none

/-- The `validate_id` validator: the id must be non-empty and, after
removing `-` and `_`, a non-empty alphanumeric string (Python's
`"".isalnum()` is `False`, so an id consisting only of `-`/`_` is
rejected). -/
def validId (s : List Char) : Bool :=
  let core := s.filter (fun c => ¬(c = '-' ∨ c = '_'))
  ¬s.isEmpty ∧ ¬core.isEmpty ∧ core.all Char.isAlphanum

/-- The closed category set of the `validate_category` validator. -/
def validCategories : List (List Char) :=
  ["Service Changes".toList, "Container Guidelines".toList,
   "Safety & Health".toList, "Additional Services".toList,
   "Billing".toList, "Service Issues".toList, "Recycling".toList,
   "Service Questions".toList, "Products & Services".toList]

/-- The `validate_url` validator: an explicit url must start with
`http://` or `https://`. -/
def startsWithHttp (u : List Char) : Bool :=
  ("http://".toList).isPrefixOf u ∨ ("https://".toList).isPrefixOf u

/-- Monadic guard for `Option`. -/
def ensure (b : Bool) : Option Unit :=
  if b then some () else none

/-- Construction of a `SupportEntry` from the fields of a JSON object,
running the pydantic field requirements and validators of
`support_entry.py` in declaration order; `none` means construction raised
(a `ValidationError`).  String-typed fields are modelled as requiring JSON
strings. -/
def buildEntry (fields : List (List Char × JValue)) : Option SupportEntry := do
  let idv ← getStrField fields ("id".toList)
  let _ ← ensure (validId idv)
  let titlev ← getStrField fields ("title".toList)
  let titleS := pyStrip titlev
  let _ ← ensure (¬titleS.isEmpty)
  let catv ← getStrField fields ("category".toList)
  let _ ← ensure (validCategories.contains catv)
  let kwv ← getStrListField fields ("keywords".toList)
  let _ ← ensure (¬kwv.isEmpty)
  let kws := (kwv.filter (fun k => ¬(pyStrip k).isEmpty)).map pyStrip
  let contentv ← getStrField fields ("content".toList)
  let contentS := pyStrip contentv
  let _ ← ensure (¬contentS.isEmpty)
  let _ ← ensure (10 ≤ contentS.length)
  let urlv ←
    match jlookup ("url".toList) fields with
    | none => some none
    | some JValue.jnull => some none
    | some (JValue.jstr u) => if startsWithHttp u then some (some u) else none
    | some _ => none
  pure { id := idv, title := titleS, category := catv, keywords := kws,
         content := contentS, url := urlv }

/-- Model of `SupportEntry(**item)` on an arbitrary JSON array element.
`Except.error true` is a validation failure on a JSON object: the source's
inner handler logs a warning (`item.get('id', 'unknown')` works on a dict)
and skips the element.  `Except.error false` is a non-object element: the
`**` unpacking raises and then the warning log line itself raises
`AttributeError` (a non-dict has no `.get`), which escapes the inner
handler. -/
def mkSupportEntry : JValue → Except Bool SupportEntry
  | JValue.jobj fields =>
    match buildEntry fields with
    | some e => Except.ok e
    | none => Except.error true
  | _ => Except.error false

/-- The in-memory store of `SupportDBService`: the entry list and the
by-id / by-category dict indexes (dicts as insertion-ordered association
lists, as in CPython). -/
structure Store where
  entries : List SupportEntry
  entriesById : List (List Char × SupportEntry)
  entriesByCategory : List (List Char × List SupportEntry)
deriving DecidableEq

/-- The store right after `clear()` of all three indexes. -/
def emptyStore : Store :=
  { entries := [], entriesById := [], entriesByCategory := [] }

/-- Python dict assignment `d[k] = v`: overwrite the value at an existing
key (keeping its position) or append a new binding. -/
def assocUpdate (k : List Char) (v : SupportEntry) :
    List (List Char × SupportEntry) → List (List Char × SupportEntry)
  | [] => [(k, v)]
  | (k', v') :: rest =>
    if k' = k then (k, v) :: rest else (k', v') :: assocUpdate k v rest

/-- Python dict lookup `d.get(k)`. -/
def assocLookup (k : List Char) :
    List (List Char × SupportEntry) → Option SupportEntry
  | [] => none
  | (k', v) :: rest => if k' = k then some v else assocLookup k rest

/-- The by-category update of `load_database`: create the category list on
first use, then append the entry to it. -/
def catUpdate (cat : List Char) (e : SupportEntry) :
    List (List Char × List SupportEntry) →
    List (List Char × List SupportEntry)
  | [] => [(cat, [e])]
  | (c, es) :: rest =>
    if c = cat then (c, es ++ [e]) :: rest else (c, es) :: catUpdate cat e rest

/-- The per-entry body of the load loop: append to `_entries`, overwrite
the `_entries_by_id` binding, append to the `_entries_by_category` list. -/
def addEntry (st : Store) (e : SupportEntry) : Store :=
  { entries := st.entries ++ [e],
    entriesById := assocUpdate e.id e st.entriesById,
    entriesByCategory := catUpdate e.category e st.entriesByCategory }

/-- The load loop of `load_database` over the parsed array elements.  A
failed construction on a JSON object is skipped (warning logged); a
non-object element makes the warning log line raise, so the outer handler
returns `False` with the store left in its partially repopulated state. -/
def loadItems : List JValue → Store → Bool × Store
  | [], st => (true, st)
  | item :: rest, st =>
    match mkSupportEntry item with
    | Except.ok e => loadItems rest (addEntry st e)
    | Except.error isMapping =>
      if isMapping then loadItems rest st else (false, st)

/-- Embedding of `SupportDBService.load_database`; the file read and JSON
parse are modelled by the `Option JValue` argument (`none` = file missing).
A missing file and a non-array top-level value return failure with the old
store intact; an array first clears all indexes, then loads the elements. -/
def load_database (file : Option JValue) (st : Store) : Bool × Store :=
  match file with
  | none => (false, st)
  | some data =>
    match data with
    | JValue.jarr items => loadItems items emptyStore
    | _ => (false, st)

/-- Embedding of `SupportDBService.get_all_entries` (the source returns a
copy; copies of immutable values are the values themselves). -/
def get_all_entries (st : Store) : List SupportEntry :=
  st.entries

/-- Embedding of `SupportDBService.get_entry_by_id`. -/
def get_entry_by_id (st : Store) (entryId : List Char) : Option SupportEntry :=
  assocLookup entryId st.entriesById

/-- Embedding of `SupportDBService.get_entry_count`. -/
def get_entry_count (st : Store) : Nat :=
  st.entries.length

/-- The duplicate-id error message `f"Duplicate ID found: {entry.id}"`. -/
def dupErrMsg (entryId : List Char) : List Char :=
  ("Duplicate ID found: ".toList) ++ entryId

/-- The duplicate-id scan of `validate_database`: walk the entries in
encounter order keeping the set of already-seen ids; every occurrence of an
already-seen id produces an error. -/
def dupScan : List SupportEntry → List (List Char) → List (List Char)
  | [], _ => []
  | e :: rest, seen =>
    if e.id ∈ seen then dupErrMsg e.id :: dupScan rest (e.id :: seen)
    else dupScan rest (e.id :: seen)

/-- The validation report of `validate_database`. -/
structure ValidationResults where
  is_valid : Bool
  total_entries : Nat
  categories : List (List Char × Nat)
  errors : List (List Char)
  warnings : List (List Char)
deriving DecidableEq

/-- Embedding of `SupportDBService.validate_database`: an empty store is
invalid; otherwise report per-category counts, one error per duplicate-id
occurrence after the first, and a warning when entries lack a url.  The
report is computed from the store without modifying it. -/
def validate_database (st : Store) : ValidationResults :=
  if st.entries.isEmpty then
    { is_valid := false, total_entries := st.entries.length, categories := [],
      errors := ["No support entries loaded".toList], warnings := [] }
  else
    let dups := dupScan st.entries []
    let noUrl := (st.entries.filter (fun e => e.url = none)).length
    { is_valid := dups.isEmpty,
      total_entries := st.entries.length,
      categories := st.entriesByCategory.map (fun p => (p.1, p.2.length)),
      errors := dups,
      warnings :=
        if 0 < noUrl then
          [(toString noUrl).toList ++ (" entries without URLs".toList)]
        else [] }

/-- The query tokenisation of `search_entries` (line 93 of the source):
split the normalised query on whitespace, strip each token, keep the
non-empty ones (`[word.strip() for word in query_lower.split() if
word.strip()]`). -/
def queryWords (query_lower : List Char) : List (List Char) :=
  ((pySplit query_lower).filter (fun w => ¬(pyStrip w).isEmpty)).map pyStrip

/-- The query normalisation of `search_entries` (line 91):
`query.lower().strip()`. -/
def normQuery (query : List Char) : List Char :=
  pyStrip (pyLower query)

/-- The title signal of the scoring loop: `+5` when the normalised query is
a substring of the lowercased title, otherwise `+2` per query word found in
the lowercased title. -/
def titleScore (query_lower : List Char) (query_words : List (List Char))
    (title : List Char) : Nat :=
  let title_lower := pyLower title
  if isSub query_lower title_lower then 5
  else query_words.foldl
    (fun s w => if isSub w title_lower then s + 2 else s) 0

/-- The keyword signal of the scoring loop: per keyword, `+4` on a mutual
substring match with the normalised query, otherwise `+2` per query word
found in the lowercased keyword; accumulated over all keywords. -/
def keywordScore (query_lower : List Char) (query_words : List (List Char))
    (keywords : List (List Char)) : Nat :=
  keywords.foldl
    (fun s kw =>
      let keyword_lower := pyLower kw
      if isSub query_lower keyword_lower ∨ isSub keyword_lower query_lower then
        s + 4
      else query_words.foldl
        (fun s2 w => if isSub w keyword_lower then s2 + 2 else s2) s)
    0

/-- The content signal of the scoring loop: `+1` per query word found in
the lowercased content. -/
def contentScore (query_words : List (List Char)) (content : List Char) : Nat :=
  let content_lower := pyLower content
  query_words.foldl
    (fun s w => if isSub w content_lower then s + 1 else s) 0

/-- The per-entry score of `search_entries` (lines 96-124 of the source):
the single accumulator of the source is the sum of the three section
signals, each accumulated in source order. -/
def entryScore (query_lower : List Char) (query_words : List (List Char))
    (e : SupportEntry) : Nat :=
  titleScore query_lower query_words e.title +
    keywordScore query_lower query_words e.keywords +
    contentScore query_words e.content

/-- The scored match list of `search_entries` in store order: every entry
with a strictly positive score, paired with its score (lines 96-127). -/
def searchResults (st : Store) (query : List Char) :
    List (SupportEntry × Nat) :=
  let query_lower := normQuery query
  let query_words := queryWords query_lower
  st.entries.filterMap (fun e =>
    let score := entryScore query_lower query_words e
    if 0 < score then some (e, score) else none)

/-- The comparison used to model `results.sort(key=lambda x: x[1],
reverse=True)`: descending by score. -/
def scoreGE (a b : SupportEntry × Nat) : Prop :=
  b.2 ≤ a.2

instance : DecidableRel scoreGE :=
  fun a b => inferInstanceAs (Decidable (b.2 ≤ a.2))

instance : IsTotal (SupportEntry × Nat) scoreGE :=
  ⟨fun a b => (Nat.le_total b.2 a.2).imp id id⟩

instance : IsTrans (SupportEntry × Nat) scoreGE :=
  ⟨fun _ _ _ hab hbc => Nat.le_trans hbc hab⟩

/-- The match list after the stable descending sort (line 130).  Python's
`list.sort` is stable and `reverse=True` keeps equal-key elements in their
original order; insertion sort with `scoreGE` has exactly these properties
(proved below: permutation, sortedness, and stability as filter
preservation). -/
def searchRanked (st : Store) (query : List Char) :
    List (SupportEntry × Nat) :=
  List.insertionSort scoreGE (searchResults st query)

/-- The ranked match list with scores dropped. -/
def rankedEntries (st : Store) (query : List Char) : List SupportEntry :=
  (searchRanked st query).map Prod.fst

/-- Embedding of `SupportDBService.search_entries` (the Python default for
`limit` is 10; `limit` is an arbitrary integer, and the final truncation
`results[:limit]` is Python slicing). -/
def search_entries (st : Store) (query : List Char) (limit : Int) :
    List SupportEntry :=
  if query = [] ∨ pyStrip query = [] then []
  else (pySliceTo (searchRanked st query) limit).map Prod.fst

/-- The per-entry context fragment built by `submit_chat_message` (lines
88-89 of `chat_endpoints.py`); the optional action-link / policy-note
suffixes (only ever appended) are outside the embedded entry model and do
not affect emptiness. -/
def contextFragment (e : SupportEntry) : List Char :=
  ("Title: ".toList) ++ e.title ++ ("\nContent: ".toList) ++ e.content

/-- The context string of `submit_chat_message`: empty when no entry
matched, otherwise the fragments joined with blank lines. -/
def buildContext (entries : List SupportEntry) : List Char :=
  if entries.isEmpty then []
  else joinSep ("\n\n".toList) (entries.map contextFragment)

/-- Python `max` over a non-empty list of rationals (0 for the empty list,
which the source never reaches). -/
def listMaxQ : List ℚ → ℚ
  | [] => 0
  | x :: xs => xs.foldl max x

/-- The confidence computation of `submit_chat_message` (lines 74-135 of
`chat_endpoints.py`): search with `limit = 3`, pair each match with the
fixed placeholder `0.5`, take the maximum over the matches, and override
with `0.1` when the context string is empty.  Floats are modelled by `ℚ`;
the only float operations performed are assignments of the literals and a
maximum over equal values, all exact. -/
def chatConfidence (st : Store) (message : List Char) : ℚ :=
  let similar := search_entries st message 3
  let scored := similar.map (fun e => (e, (1 : ℚ)/2))
  let context := buildContext similar
  let conf : ℚ := if scored.isEmpty then 0 else listMaxQ (scored.map Prod.snd)
  if context.isEmpty then 1/10 else conf

/-- The number of query words that are substrings of a haystack. -/
def countMatches (query_words : List (List Char)) (hay : List Char) : Nat :=
  (query_words.filter (fun w => isSub w hay)).length

/-- Specification-side restatement of the scoring rule, written as the
spec's table of summed signals: `+5` for a title exact-substring else `+2`
per title word match; per keyword `+4` for a mutual substring match else
`+2` per word match; `+1` per content word match; all summed over all
keywords and query words.  To be compared with the source-side
`entryScore`. -/
def specEntryScore (query : List Char) (e : SupportEntry) : Nat :=
  let nq := normQuery query
  let words := queryWords nq
  let title := pyLower e.title
  let tScore := if isSub nq title then 5 else 2 * countMatches words title
  let kScore :=
    (e.keywords.map (fun kw =>
      let kl := pyLower kw
      if isSub nq kl ∨ isSub kl nq then 4 else 2 * countMatches words kl)).sum
  let cScore := countMatches words (pyLower e.content)
  tScore + kScore + cScore

/-- Entry A of the spec's worked example (§8). -/
def entryA : SupportEntry :=
  { id := "A".toList, title := "Billing question".toList,
    category := "Billing".toList,
    keywords := ["bill".toList, "invoice".toList],
    content := "pay your bill online".toList, url := none }

/-- Entry B of the spec's worked example (§8). -/
def entryB : SupportEntry :=
  { id := "B".toList, title := "Recycling guide".toList,
    category := "Recycling".toList, keywords := ["recycle".toList],
    content := "bin colors for recycling".toList, url := none }

/-- The two-entry store of the spec's worked example, A loaded before B. -/
def storeAB : Store :=
  addEntry (addEntry emptyStore entryA) entryB

/-! ### Lemmas about the scoring folds -/

/-- A fold that adds `c` for every element satisfying `p` computes
`c * (number of matches)`. -/
theorem foldl_count (c : Nat) (p : List Char → Bool) :
    ∀ (ws : List (List Char)) (init : Nat),
      ws.foldl (fun s w => if p w then s + c else s) init =
        init + c * (ws.filter p).length := by
  intro ws
  induction ws with
  | nil => intro init; simp
  | cons w ws ih =>
    intro init
    by_cases h : p w
    · simp only [List.foldl_cons, if_pos h, ih, List.filter_cons, h,
        if_true, List.length_cons, Nat.mul_succ]
      omega
    · simp only [List.foldl_cons, if_neg h, ih, List.filter_cons, h,
        Bool.false_eq_true, if_false]

/-- The title signal as a closed formula. -/
theorem titleScore_eq (ql : List Char) (ws : List (List Char))
    (title : List Char) :
    titleScore ql ws title =
      if isSub ql (pyLower title) then 5
      else 2 * countMatches ws (pyLower title) := by
  unfold titleScore countMatches
  by_cases h : isSub ql (pyLower title)
  · simp [h]
  · simp only [if_neg h]
    simpa using foldl_count 2 (fun w => isSub w (pyLower title)) ws 0

/-- The content signal as a closed formula. -/
theorem contentScore_eq (ws : List (List Char)) (content : List Char) :
    contentScore ws content = countMatches ws (pyLower content) := by
  unfold contentScore countMatches
  simpa using foldl_count 1 (fun w => isSub w (pyLower content)) ws 0

/-- The keyword signal as a sum of per-keyword contributions. -/
theorem keywordScore_eq_aux (ql : List Char) (ws : List (List Char)) :
    ∀ (kws : List (List Char)) (init : Nat),
      (kws.foldl
        (fun s kw =>
          let keyword_lower := pyLower kw
          if isSub ql keyword_lower ∨ isSub keyword_lower ql then s + 4
          else ws.foldl
            (fun s2 w => if isSub w keyword_lower then s2 + 2 else s2) s)
        init) =
      init + (kws.map (fun kw =>
        let kl := pyLower kw
        if isSub ql kl ∨ isSub kl ql then 4 else 2 * countMatches ws kl)).sum := by
  intro kws
  induction kws with
  | nil => intro init; simp
  | cons kw kws ih =>
    intro init
    simp only [List.foldl_cons, List.map_cons, List.sum_cons]
    by_cases h : isSub ql (pyLower kw) ∨ isSub (pyLower kw) ql
    · simp only [if_pos h, ih]
      omega
    · simp only [if_neg h, ih, foldl_count 2 (fun w => isSub w (pyLower kw)) ws]
      unfold countMatches
      omega

/-- The keyword signal as a closed formula. -/
theorem keywordScore_eq (ql : List Char) (ws : List (List Char))
    (kws : List (List Char)) :
    keywordScore ql ws kws =
      (kws.map (fun kw =>
        let kl := pyLower kw
        if isSub ql kl ∨ isSub kl ql then 4
        else 2 * countMatches ws kl)).sum := by
  unfold keywordScore
  simpa using keywordScore_eq_aux ql ws kws 0

/-- C1: for every entry and every query with at least one non-whitespace
character, the score computed by the search loop equals the spec's formula:
+5 for a title exact-substring match of the normalised query, else +2 per
query word found in the title; per keyword +4 for a mutual substring match,
else +2 per query word found in that keyword; +1 per query word found in
the content; summed over all keywords and query words. -/
theorem c1_score_matches_spec (q : List Char) (e : SupportEntry)
    (hq : ∃ c ∈ q, ¬ isPySpace c) :
    entryScore (normQuery q) (queryWords (normQuery q)) e = specEntryScore q e := by
  clear hq
  unfold entryScore specEntryScore
  rw [titleScore_eq, contentScore_eq, keywordScore_eq]

/-- C1 witness: the score formula instantiated at the spec's example. -/
theorem c1_score_matches_spec_witness :
    entryScore (normQuery ("recycle bin".toList))
        (queryWords (normQuery ("recycle bin".toList))) entryA =
      specEntryScore ("recycle bin".toList) entryA :=
  c1_score_matches_spec ("recycle bin".toList) entryA (by decide)

/-- C4: searching the empty string, or any whitespace-only string, returns
the empty list for every limit (the embedded function is total, so no
exception can be raised on any string input). -/
theorem c4_empty_or_whitespace_query (st : Store) (limit : Int) :
    search_entries st [] limit = [] ∧
      ∀ q : List Char, (∀ c ∈ q, isPySpace c = true) →
        search_entries st q limit = [] := by
  constructor
  · simp [search_entries]
  · intro q hq
    have hstrip : pyStrip q = [] := by
      unfold pyStrip
      rw [List.dropWhile_eq_nil_iff.mpr hq]
      rfl
    simp [search_entries, hstrip]

/-- C4 witness: a three-space query returns no results. -/
theorem c4_empty_or_whitespace_query_witness :
    search_entries storeAB ("   ".toList) 7 = [] :=
  (c4_empty_or_whitespace_query storeAB 7).2 ("   ".toList) (by decide)

/-- C7: on the spec's two-entry example store, the query `"recycle bin"`
scores B through exactly the keyword mutual-substring signal (+4) and the
content word signal (+1) — the title signal is 0 — for a total of 5, scores
A as 0, and the search returns exactly `[B]`. -/
theorem c7_worked_example :
    titleScore (normQuery ("recycle bin".toList))
        (queryWords (normQuery ("recycle bin".toList))) entryB.title = 0 ∧
    keywordScore (normQuery ("recycle bin".toList))
        (queryWords (normQuery ("recycle bin".toList))) entryB.keywords = 4 ∧
    contentScore (queryWords (normQuery ("recycle bin".toList)))
        entryB.content = 1 ∧
    entryScore (normQuery ("recycle bin".toList))
        (queryWords (normQuery ("recycle bin".toList))) entryB = 5 ∧
    entryScore (normQuery ("recycle bin".toList))
        (queryWords (normQuery ("recycle bin".toList))) entryA = 0 ∧
    search_entries storeAB ("recycle bin".toList) 10 = [entryB] := by
  refine ⟨by decide, by decide, by decide, by decide, by decide, by decide⟩

/-! ### Lemmas about slicing and the search pipeline -/

/-- Python slicing `l[:n]` always yields a sublist (for any sign of `n`). -/
theorem pySliceTo_sublist (l : List α) (n : Int) :
    List.Sublist (pySliceTo l n) l := by
  unfold pySliceTo
  split
  · exact List.take_sublist _ _
  · exact List.take_sublist _ _

/-- Membership in a scored match: the score is the entry's score and is
strictly positive. -/
theorem mem_searchResults (st : Store) (q : List Char)
    (p : SupportEntry × Nat) (hp : p ∈ searchResults st q) :
    p.2 = entryScore (normQuery q) (queryWords (normQuery q)) p.1 ∧ 0 < p.2 := by
  unfold searchResults at hp
  obtain ⟨a, ha, hfa⟩ := List.mem_filterMap.mp hp
  by_cases hscore : 0 < entryScore (normQuery q) (queryWords (normQuery q)) a
  · rw [if_pos hscore] at hfa
    cases hfa
    exact ⟨rfl, hscore⟩
  · rw [if_neg hscore] at hfa
    cases hfa

/-- C3: every entry the search returns has a strictly positive score, and
a query matching no entry (every entry scoring 0) yields the empty list. -/
theorem c3_positive_scores (st : Store) (q : List Char) (limit : Int) :
    (∀ e ∈ search_entries st q limit,
      0 < entryScore (normQuery q) (queryWords (normQuery q)) e) ∧
    ((∀ e ∈ st.entries,
        entryScore (normQuery q) (queryWords (normQuery q)) e = 0) →
      search_entries st q limit = []) := by
  constructor
  · intro e he
    unfold search_entries at he
    split at he
    · cases he
    · obtain ⟨p, hp, rfl⟩ := List.mem_map.mp he
      have hp1 : p ∈ searchRanked st q :=
        (pySliceTo_sublist (searchRanked st q) limit).subset hp
      have hp2 : p ∈ searchResults st q := by
        unfold searchRanked at hp1
        exact (List.mem_insertionSort scoreGE).mp hp1
      have := mem_searchResults st q p hp2
      omega
  · intro h
    unfold search_entries
    split
    · rfl
    · have hres : searchResults st q = [] := by
        unfold searchResults
        refine List.filterMap_eq_nil_iff.mpr (fun a ha => ?_)
        rw [if_neg]
        rw [h a ha]
        omega
      unfold searchRanked
      rw [hres]
      have hnil :
          List.insertionSort scoreGE ([] : List (SupportEntry × Nat)) = [] :=
        rfl
      rw [hnil]
      unfold pySliceTo
      split <;> simp

/-- C3 witness: on the example store, the returned entry for `"bill"` has
positive score, and a query matching nothing returns the empty list. -/
theorem c3_positive_scores_witness :
    (0 < entryScore (normQuery ("bill".toList))
      (queryWords (normQuery ("bill".toList))) entryA) ∧
    search_entries storeAB ("zzz".toList) 10 = [] :=
  ⟨(c3_positive_scores storeAB ("bill".toList) 10).1 entryA (by decide),
   (c3_positive_scores storeAB ("zzz".toList) 10).2 (by decide)⟩

/-- C9: with a negative limit `n`, the search does not truncate to `n`
results; it returns the ranked match list with its last `|n|` elements
removed (Python slice semantics of `results[:n]`), in particular the empty
list when there are at most `|n|` matches, and the result never has
"at most `n`" elements. -/
theorem c9_negative_limit (st : Store) (q : List Char) (n : Int)
    (hq : pyStrip q ≠ []) (hn : n < 0) :
    search_entries st q n =
      (rankedEntries st q).take ((rankedEntries st q).length - n.natAbs) ∧
    ((rankedEntries st q).length ≤ n.natAbs → search_entries st q n = []) ∧
    ¬ (((search_entries st q n).length : Int) ≤ n) := by
  have hguard : ¬(q = [] ∨ pyStrip q = []) := by
    rintro (rfl | h)
    · exact hq rfl
    · exact hq h
  have hmain : search_entries st q n =
      (rankedEntries st q).take ((rankedEntries st q).length - n.natAbs) := by
    unfold search_entries
    rw [if_neg hguard]
    unfold pySliceTo
    rw [if_pos hn]
    unfold rankedEntries
    rw [List.map_take, List.length_map]
  refine ⟨hmain, ?_, ?_⟩
  · intro hle
    rw [hmain, Nat.sub_eq_zero_of_le hle, List.take_zero]
  · intro hcontra
    have : (0 : Int) ≤ ((search_entries st q n).length : Int) :=
      Int.natCast_nonneg _
    omega

/-- The five-entry store used to exercise negative limits: every entry
matches the query `"x"` through its keyword. -/
def entryX (tag : List Char) : SupportEntry :=
  { id := tag, title := "topic".toList, category := "Billing".toList,
    keywords := ["x".toList], content := "something".toList, url := none }

/-- A store with five matching entries, loaded in order x1 .. x5. -/
def store5 : Store :=
  addEntry (addEntry (addEntry (addEntry (addEntry emptyStore
    (entryX ("x1".toList))) (entryX ("x2".toList))) (entryX ("x3".toList)))
    (entryX ("x4".toList))) (entryX ("x5".toList))

/-- C9 witness: five matching entries and `limit = -1` return the 4
highest-ranked matches. -/
theorem c9_negative_limit_witness :
    search_entries store5 ("x".toList) (-1) =
      (rankedEntries store5 ("x".toList)).take
        ((rankedEntries store5 ("x".toList)).length - (-1 : Int).natAbs) ∧
    (search_entries store5 ("x".toList) (-1)).length = 4 :=
  ⟨(c9_negative_limit store5 ("x".toList) (-1) (by decide) (by decide)).1,
   by decide⟩

/-! ### Stability of the descending sort -/

/-- Inserting into the descending order keeps, for every score value `k`,
the sub-sequence of score-`k` elements: a new element of score `k` lands in
front of them (every element it jumps over has a strictly larger score). -/
theorem filter_orderedInsert (k : Nat) (a : SupportEntry × Nat) :
    ∀ l : List (SupportEntry × Nat),
      (List.orderedInsert scoreGE a l).filter (fun x => x.2 == k) =
        if a.2 == k then a :: l.filter (fun x => x.2 == k)
        else l.filter (fun x => x.2 == k) := by
  intro l
  induction l with
  | nil =>
    simp only [List.orderedInsert, List.filter_cons, List.filter_nil]
  | cons y ys ih =>
    show (if scoreGE a y then a :: y :: ys
      else y :: List.orderedInsert scoreGE a ys).filter (fun x => x.2 == k) = _
    by_cases hay : scoreGE a y
    · rw [if_pos hay, List.filter_cons]
    · rw [if_neg hay, List.filter_cons, ih]
      have hlt : a.2 < y.2 := Nat.lt_of_not_le hay
      by_cases hak : (a.2 == k) = true
      · have hyk : (y.2 == k) = false := by
          have hk : a.2 = k := by simpa using hak
          simp only [beq_eq_false_iff_ne, ne_eq]
          omega
        rw [if_pos hak, hyk, if_pos hak]
        simp only [Bool.false_eq_true, if_false, List.filter_cons, hyk]
      · rw [if_neg hak, if_neg hak, List.filter_cons]

/-- Stability of the modelled sort: for every score value `k`, sorting
preserves the relative order (indeed the exact sub-list) of the elements
with score `k`. -/
theorem filter_insertionSort (k : Nat) :
    ∀ l : List (SupportEntry × Nat),
      (List.insertionSort scoreGE l).filter (fun x => x.2 == k) =
        l.filter (fun x => x.2 == k) := by
  intro l
  induction l with
  | nil => rfl
  | cons a l ih =>
    show (List.orderedInsert scoreGE a
      (List.insertionSort scoreGE l)).filter (fun x => x.2 == k) = _
    rw [filter_orderedInsert, ih, List.filter_cons]

/-- C2: for a query with a non-whitespace character and a non-negative
limit, the search output is the first `limit` elements of the ranked match
list; it has at most `limit` entries; the ranked list is a permutation of
the matches; scores are non-increasing; for every score value the returned
elements of that score are an initial segment of the store-order matches of
that score (stable tie-break by store order); and every match beyond the
cut scores no more than every returned entry. -/
theorem c2_limit_sorted_stable (st : Store) (q : List Char) (limit : Int)
    (hq : pyStrip q ≠ []) (hlim : 0 ≤ limit) :
    search_entries st q limit =
      ((searchRanked st q).take limit.toNat).map Prod.fst ∧
    (search_entries st q limit).length ≤ limit.toNat ∧
    (searchRanked st q).Perm (searchResults st q) ∧
    ((searchRanked st q).take limit.toNat).Pairwise
      (fun a b => b.2 ≤ a.2) ∧
    (∀ k : Nat, ∃ t,
      ((searchRanked st q).take limit.toNat).filter (fun x => x.2 == k) ++ t =
        (searchResults st q).filter (fun x => x.2 == k)) ∧
    (∀ a ∈ (searchRanked st q).take limit.toNat,
      ∀ b ∈ (searchRanked st q).drop limit.toNat, b.2 ≤ a.2) := by
  have hguard : ¬(q = [] ∨ pyStrip q = []) := by
    rintro (rfl | h)
    · exact hq rfl
    · exact hq h
  have hsorted : (searchRanked st q).Pairwise scoreGE :=
    List.sorted_insertionSort scoreGE (searchResults st q)
  have hmain : search_entries st q limit =
      ((searchRanked st q).take limit.toNat).map Prod.fst := by
    unfold search_entries
    rw [if_neg hguard]
    unfold pySliceTo
    rw [if_neg (by omega : ¬limit < 0)]
  refine ⟨hmain, ?_, ?_, ?_, ?_, ?_⟩
  · rw [hmain, List.length_map]
    exact (List.length_take_le _ _)
  · exact List.perm_insertionSort scoreGE (searchResults st q)
  · exact hsorted.sublist (List.take_sublist _ _)
  · intro k
    refine ⟨((searchRanked st q).drop limit.toNat).filter
      (fun x => x.2 == k), ?_⟩
    rw [← List.filter_append, List.take_append_drop]
    exact filter_insertionSort k (searchResults st q)
  · intro a ha b hb
    exact hsorted.rel_of_mem_take_of_mem_drop ha hb

/-- C2 witness: the truncation bound instantiated at the example store. -/
theorem c2_limit_sorted_stable_witness :
    (search_entries storeAB ("recycle bin".toList) 3).length ≤
      (3 : Int).toNat :=
  (c2_limit_sorted_stable storeAB ("recycle bin".toList) 3 (by decide)
    (by decide)).2.1

/-! ### The confidence score of the chat orchestration -/

/-- A join of fragments is non-empty when the first fragment is. -/
theorem joinSep_ne_nil (sep x : List Char) (xs : List (List Char))
    (hx : x ≠ []) : joinSep sep (x :: xs) ≠ [] := by
  cases xs with
  | nil => exact hx
  | cons y ys =>
    show x ++ sep ++ joinSep sep (y :: ys) ≠ []
    cases x with
    | nil => exact absurd rfl hx
    | cons c cs => simp

/-- Every context fragment starts with `Title: `, hence is non-empty. -/
theorem contextFragment_ne_nil (e : SupportEntry) : contextFragment e ≠ [] := by
  unfold contextFragment
  rw [show ("Title: ".toList) = 'T' :: ("itle: ".toList) from rfl]
  simp

/-- A fold of `max` over copies of the starting value is that value. -/
theorem foldl_max_const (c : ℚ) :
    ∀ xs : List ℚ, (∀ y ∈ xs, y = c) → xs.foldl max c = c := by
  intro xs
  induction xs with
  | nil => intro _; rfl
  | cons y ys ih =>
    intro h
    have hy : y = c := h y (List.mem_cons_self y ys)
    simp only [List.foldl_cons, hy, max_self]
    exact ih (fun z hz => h z (List.mem_cons_of_mem y hz))

/-- C8: in the chat orchestration, the confidence score is exactly `0.1`
when the limit-3 search returns no entries and exactly `0.5` (the maximum
over the fixed per-match placeholder values) when it returns at least one
entry. -/
theorem c8_confidence_score (st : Store) (msg : List Char) :
    (search_entries st msg 3 = [] → chatConfidence st msg = 1/10) ∧
    (search_entries st msg 3 ≠ [] → chatConfidence st msg = 1/2) := by
  constructor
  · intro h
    unfold chatConfidence
    rw [h]
    rfl
  · intro h
    obtain ⟨e, rest, hsim⟩ := List.exists_cons_of_ne_nil h
    unfold chatConfidence
    rw [hsim]
    have hctx : buildContext (e :: rest) ≠ [] := by
      unfold buildContext
      rw [if_neg (by simp : ¬((e :: rest).isEmpty = true))]
      exact joinSep_ne_nil _ _ _ (contextFragment_ne_nil e)
    obtain ⟨c, cs, hc⟩ := List.exists_cons_of_ne_nil hctx
    simp only [hc, List.map_cons, List.isEmpty_cons, Bool.false_eq_true,
      if_false]
    show ((rest.map (fun e => (e, (1 : ℚ)/2))).map Prod.snd).foldl max (1/2) =
      1/2
    refine foldl_max_const _ _ (fun y hy => ?_)
    obtain ⟨p, hp, rfl⟩ := List.mem_map.mp hy
    obtain ⟨s, hs, rfl⟩ := List.mem_map.mp hp
    rfl

/-- C8 witness: confidence `0.1` on a no-match query and `0.5` on the
example store's matching query. -/
theorem c8_confidence_score_witness :
    chatConfidence storeAB ("zzz".toList) = 1/10 ∧
    chatConfidence storeAB ("recycle bin".toList) = 1/2 :=
  ⟨(c8_confidence_score storeAB ("zzz".toList)).1 (by decide),
   (c8_confidence_score storeAB ("recycle bin".toList)).2 (by decide)⟩

/-! ### Loading and validation -/

/-- On an array all of whose elements are JSON objects, the load loop never
aborts: it returns success and the fold of the successfully constructed
entries (failed constructions are skipped). -/
theorem loadItems_allObj :
    ∀ (items : List JValue) (st : Store),
      (∀ it ∈ items, isJObj it = true) →
      loadItems items st =
        (true, List.foldl addEntry st
          (items.filterMap (fun it => (mkSupportEntry it).toOption))) := by
  intro items
  induction items with
  | nil => intro st _; rfl
  | cons item rest ih =>
    intro st h
    have hobj := h item (List.mem_cons_self item rest)
    have hrest := fun it hit => h it (List.mem_cons_of_mem item hit)
    cases item with
    | jobj fields =>
      cases hb : buildEntry fields with
      | some e =>
        show loadItems (JValue.jobj fields :: rest) st = _
        simp only [loadItems, mkSupportEntry, hb, List.filterMap_cons,
          Except.toOption, List.foldl_cons]
        exact ih (addEntry st e) hrest
      | none =>
        show loadItems (JValue.jobj fields :: rest) st = _
        simp only [loadItems, mkSupportEntry, hb, List.filterMap_cons,
          Except.toOption, if_true]
        exact ih st hrest
    | jnull => simp [isJObj] at hobj
    | jbool b => simp [isJObj] at hobj
    | jnum n => simp [isJObj] at hobj
    | jstr s => simp [isJObj] at hobj
    | jarr xs => simp [isJObj] at hobj

/-- Folding the per-entry load step appends the entries in order. -/
theorem entries_foldl_addEntry :
    ∀ (es : List SupportEntry) (st : Store),
      (List.foldl addEntry st es).entries = st.entries ++ es := by
  intro es
  induction es with
  | nil => intro st; simp
  | cons e es ih =>
    intro st
    rw [List.foldl_cons, ih]
    show (st.entries ++ [e]) ++ es = st.entries ++ e :: es
    simp

/-- C5 counterexample: a JSON array containing the non-object element `1`
makes `load_database` return failure — `SupportEntry(**item)` raises, and
the warning log line `item.get('id', 'unknown')` raises `AttributeError`
on a non-dict, escaping to the outer handler. -/
theorem c5_counterexample_nonobject_element :
    (load_database (some (JValue.jarr [JValue.jnum 1])) emptyStore).1 =
      false :=
  rfl

/-- C5 (amended): for a JSON array all of whose elements are JSON objects,
load succeeds, skipping exactly the elements whose construction fails;
and load fails for a missing file and for a non-array top-level value. -/
theorem c5_load_partial_failure (st : Store) (items : List JValue)
    (hobj : ∀ it ∈ items, isJObj it = true) :
    (load_database (some (JValue.jarr items)) st).1 = true ∧
    (load_database (some (JValue.jarr items)) st).2.entries =
      items.filterMap (fun it => (mkSupportEntry it).toOption) ∧
    (load_database none st).1 = false ∧
    (∀ v : JValue, isJArr v = false → (load_database (some v) st).1 = false) := by
  have hload := loadItems_allObj items emptyStore hobj
  refine ⟨?_, ?_, rfl, ?_⟩
  · show (loadItems items emptyStore).1 = true
    rw [hload]
  · show (loadItems items emptyStore).2.entries = _
    rw [hload]
    rw [entries_foldl_addEntry]
    rfl
  · intro v hv
    cases v with
    | jarr xs => simp [isJArr] at hv
    | jnull => rfl
    | jbool b => rfl
    | jnum n => rfl
    | jstr s => rfl
    | jobj fields => rfl

/-- The JSON object fields of the duplicate-id examples. -/
def jdupFields (titleTag : List Char) : List (List Char × JValue) :=
  [("id".toList, JValue.jstr ("dup-1".toList)),
   ("title".toList, JValue.jstr titleTag),
   ("category".toList, JValue.jstr ("Billing".toList)),
   ("keywords".toList, JValue.jarr [JValue.jstr ("pay".toList)]),
   ("content".toList, JValue.jstr ("pay your bill online".toList))]

/-- First JSON object with id `dup-1`. -/
def jdupA : JValue := JValue.jobj (jdupFields ("First title".toList))

/-- Second JSON object with the same id `dup-1`. -/
def jdupB : JValue := JValue.jobj (jdupFields ("Second title".toList))

/-- The entry constructed from `jdupA`. -/
def eDupA : SupportEntry :=
  { id := "dup-1".toList, title := "First title".toList,
    category := "Billing".toList, keywords := ["pay".toList],
    content := "pay your bill online".toList, url := none }

/-- The entry constructed from `jdupB`. -/
def eDupB : SupportEntry :=
  { id := "dup-1".toList, title := "Second title".toList,
    category := "Billing".toList, keywords := ["pay".toList],
    content := "pay your bill online".toList, url := none }

/-- C5 witness: an array of two objects, the second failing validation,
loads successfully keeping only the valid entry. -/
theorem c5_load_partial_failure_witness :
    (load_database (some (JValue.jarr [jdupA, JValue.jobj []]))
      emptyStore).1 = true ∧
    (load_database (some (JValue.jarr [jdupA, JValue.jobj []]))
      emptyStore).2.entries = [eDupA] :=
  ⟨(c5_load_partial_failure emptyStore [jdupA, JValue.jobj []] (by decide)).1,
   Eq.trans
     ((c5_load_partial_failure emptyStore [jdupA, JValue.jobj []]
       (by decide)).2.1)
     (by decide)⟩

/-- An entry whose id is already in the seen set produces a duplicate
error wherever it sits in the scan. -/
theorem dupScan_mem_of_seen :
    ∀ (l : List SupportEntry) (seen : List (List Char)) (y : SupportEntry),
      y ∈ l → y.id ∈ seen → dupErrMsg y.id ∈ dupScan l seen := by
  intro l
  induction l with
  | nil => intro seen y hy _; cases hy
  | cons e rest ih =>
    intro seen y hy hseen
    rcases List.mem_cons.mp hy with rfl | hy'
    · show dupErrMsg y.id ∈ if y.id ∈ seen then _ else _
      rw [if_pos hseen]
      exact List.mem_cons_self _ _
    · show dupErrMsg y.id ∈ if e.id ∈ seen then _ else _
      have hrec := ih (e.id :: seen) y hy' (List.mem_cons_of_mem e.id hseen)
      split
      · exact List.mem_cons_of_mem _ hrec
      · exact hrec

/-- Every occurrence of an id that already occurred earlier in the scanned
list is reported as a duplicate error. -/
theorem dupScan_mem_of_earlier :
    ∀ (l1 : List SupportEntry) (x : SupportEntry) (l2 : List SupportEntry)
      (y : SupportEntry) (l3 : List SupportEntry) (seen : List (List Char)),
      x.id = y.id →
      dupErrMsg y.id ∈ dupScan (l1 ++ x :: l2 ++ y :: l3) seen := by
  intro l1
  induction l1 with
  | nil =>
    intro x l2 y l3 seen hxy
    show dupErrMsg y.id ∈ if x.id ∈ seen then _ else _
    have hmem : y ∈ l2 ++ y :: l3 :=
      List.mem_append_right l2 (List.mem_cons_self y l3)
    have hid : y.id ∈ x.id :: seen := by
      rw [hxy]
      exact List.mem_cons_self y.id seen
    have hrec := dupScan_mem_of_seen (l2 ++ y :: l3) (x.id :: seen) y hmem hid
    split
    · exact List.mem_cons_of_mem _ hrec
    · exact hrec
  | cons z l1' ih =>
    intro x l2 y l3 seen hxy
    show dupErrMsg y.id ∈ if z.id ∈ seen then _ else _
    have hrec := ih x l2 y l3 (z.id :: seen) hxy
    split
    · exact List.mem_cons_of_mem _ hrec
    · exact hrec

/-- On a non-empty store, the validation report's fields are the duplicate
scan and the full entry count. -/
theorem validate_database_nonempty (st : Store) (h : st.entries ≠ []) :
    (validate_database st).is_valid = (dupScan st.entries []).isEmpty ∧
    (validate_database st).errors = dupScan st.entries [] ∧
    (validate_database st).total_entries = st.entries.length := by
  have hIE : st.entries.isEmpty = false := by
    cases hE : st.entries with
    | nil => exact absurd hE h
    | cons a l => rfl
  unfold validate_database
  simp only [hIE, Bool.false_eq_true, if_false]
  exact ⟨trivial, trivial, trivial⟩

/-- C6: loading an all-object array containing two individually valid
entries with the same id succeeds, and `validate_database` then reports the
store invalid with a duplicate-id error naming that id — one error for
every occurrence after the first (the decomposition below singles out an
arbitrary later occurrence `y` of an id already carried by an earlier
occurrence `x`) — while the report still counts every loaded entry (no
data is removed). -/
theorem c6_validate_duplicate_ids (st : Store) (items : List JValue)
    (hobj : ∀ it ∈ items, isJObj it = true)
    (l1 l2 l3 : List SupportEntry) (x y : SupportEntry)
    (hsplit : items.filterMap (fun it => (mkSupportEntry it).toOption) =
      l1 ++ x :: l2 ++ y :: l3)
    (hxy : x.id = y.id) :
    (load_database (some (JValue.jarr items)) st).1 = true ∧
    (load_database (some (JValue.jarr items)) st).2.entries =
      l1 ++ x :: l2 ++ y :: l3 ∧
    (validate_database
      (load_database (some (JValue.jarr items)) st).2).is_valid = false ∧
    dupErrMsg y.id ∈
      (validate_database
        (load_database (some (JValue.jarr items)) st).2).errors ∧
    (validate_database
      (load_database (some (JValue.jarr items)) st).2).total_entries =
      (l1 ++ x :: l2 ++ y :: l3).length := by
  have hload := loadItems_allObj items emptyStore hobj
  have h1 : (load_database (some (JValue.jarr items)) st).1 = true := by
    show (loadItems items emptyStore).1 = true
    rw [hload]
  have h2 : (load_database (some (JValue.jarr items)) st).2.entries =
      l1 ++ x :: l2 ++ y :: l3 := by
    show (loadItems items emptyStore).2.entries = _
    rw [hload]
    rw [entries_foldl_addEntry, hsplit]
    rfl
  have hne : (l1 ++ x :: l2 ++ y :: l3) ≠ [] := by
    intro hcontra
    rcases List.append_eq_nil.mp hcontra with ⟨-, h⟩
    cases h
  have hmem : dupErrMsg y.id ∈
      dupScan ((load_database (some (JValue.jarr items)) st).2.entries) [] := by
    rw [h2]
    exact dupScan_mem_of_earlier l1 x l2 y l3 [] hxy
  have hproj := validate_database_nonempty
    (load_database (some (JValue.jarr items)) st).2 (by rw [h2]; exact hne)
  refine ⟨h1, h2, ?_, ?_, ?_⟩
  · rw [hproj.1]
    have hd : dupScan ((load_database (some (JValue.jarr items)) st).2.entries)
        [] ≠ [] := List.ne_nil_of_mem hmem
    rcases List.exists_cons_of_ne_nil hd with ⟨a, l, hdl⟩
    rw [hdl]
    rfl
  · rw [hproj.2.1]
    exact hmem
  · rw [hproj.2.2, h2]

/-- C6 witness: two concrete valid objects bearing id `dup-1`. -/
theorem c6_validate_duplicate_ids_witness :
    (validate_database
      (load_database (some (JValue.jarr [jdupA, jdupB])) emptyStore).2).is_valid
      = false ∧
    dupErrMsg ("dup-1".toList) ∈
      (validate_database
        (load_database (some (JValue.jarr [jdupA, jdupB]))
          emptyStore).2).errors :=
  ⟨(c6_validate_duplicate_ids emptyStore [jdupA, jdupB] (by decide)
      [] [] [] eDupA eDupB (by decide) (by decide)).2.2.1,
   (c6_validate_duplicate_ids emptyStore [jdupA, jdupB] (by decide)
      [] [] [] eDupA eDupB (by decide) (by decide)).2.2.2.1⟩

/-- First-wins choice on options: the left option when present, otherwise
the right one.  Used to express last-occurrence-wins lookups. -/
def optOr (a b : Option SupportEntry) : Option SupportEntry :=
  match a with
  | some x => some x
  | none => b

/-- The last entry of a list carrying a given id (later occurrences take
precedence), mirroring the overwrite semantics of repeated dict
assignments to the by-id index. -/
def lastWithId (id0 : List Char) : List SupportEntry → Option SupportEntry
  | [] => none
  | e :: rest =>
    optOr (lastWithId id0 rest) (if e.id = id0 then some e else none)

/-- Looking up an updated association list: the updated key now maps to the
new value, every other key is untouched. -/
theorem assocLookup_assocUpdate (k id0 : List Char) (v : SupportEntry) :
    ∀ m : List (List Char × SupportEntry),
      assocLookup id0 (assocUpdate k v m) =
        if k = id0 then some v else assocLookup id0 m := by
  intro m
  induction m with
  | nil => simp [assocUpdate, assocLookup]
  | cons p rest ih =>
    obtain ⟨k', v'⟩ := p
    show assocLookup id0
      (if k' = k then (k, v) :: rest else (k', v') :: assocUpdate k v rest) = _
    by_cases hk : k' = k
    · rw [if_pos hk]
      show (if k = id0 then some v else assocLookup id0 rest) = _
      by_cases hki : k = id0
      · rw [if_pos hki, if_pos hki]
      · rw [if_neg hki, if_neg hki]
        show _ = if k' = id0 then some v' else assocLookup id0 rest
        rw [if_neg (by rw [hk]; exact hki)]
    · rw [if_neg hk]
      show (if k' = id0 then some v' else assocLookup id0 (assocUpdate k v rest))
        = _
      by_cases hki : k' = id0
      · rw [if_pos hki]
        rw [if_neg (fun hc : k = id0 => hk (hki.trans hc.symm))]
        show some v' = if k' = id0 then some v' else assocLookup id0 rest
        rw [if_pos hki]
      · rw [if_neg hki, ih]
        by_cases hk0 : k = id0
        · rw [if_pos hk0, if_pos hk0]
        · rw [if_neg hk0, if_neg hk0]
          show _ = if k' = id0 then some v' else assocLookup id0 rest
          rw [if_neg hki]

/-- The by-id index produced by folding the load step realises
last-occurrence-wins lookup. -/
theorem get_entry_by_id_foldl :
    ∀ (es : List SupportEntry) (st : Store) (id0 : List Char),
      get_entry_by_id (List.foldl addEntry st es) id0 =
        optOr (lastWithId id0 es) (get_entry_by_id st id0) := by
  intro es
  induction es with
  | nil => intro st id0; rfl
  | cons e rest ih =>
    intro st id0
    rw [List.foldl_cons, ih]
    show _ = optOr
      (optOr (lastWithId id0 rest) (if e.id = id0 then some e else none))
      (get_entry_by_id st id0)
    cases hrest : lastWithId id0 rest with
    | some x => rfl
    | none =>
      show get_entry_by_id (addEntry st e) id0 =
        optOr (if e.id = id0 then some e else none) (get_entry_by_id st id0)
      show assocLookup id0 (assocUpdate e.id e st.entriesById) = _
      rw [assocLookup_assocUpdate e.id id0 e st.entriesById]
      by_cases he : e.id = id0
      · rw [if_pos he, if_pos he]
        rfl
      · rw [if_neg he, if_neg he]
        rfl

/-- A list with no entry carrying the id has no last occurrence of it. -/
theorem lastWithId_eq_none :
    ∀ (l : List SupportEntry) (id0 : List Char),
      (∀ z ∈ l, z.id ≠ id0) → lastWithId id0 l = none := by
  intro l
  induction l with
  | nil => intro id0 _; rfl
  | cons e rest ih =>
    intro id0 h
    show optOr (lastWithId id0 rest) (if e.id = id0 then some e else none) =
      none
    rw [ih id0 (fun z hz => h z (List.mem_cons_of_mem e hz))]
    rw [if_neg (h e (List.mem_cons_self e rest))]
    rfl

/-- The last occurrence over an append: the right part wins when it has
an occurrence at all. -/
theorem lastWithId_append :
    ∀ (l l' : List SupportEntry) (id0 : List Char),
      lastWithId id0 (l ++ l') =
        optOr (lastWithId id0 l') (lastWithId id0 l) := by
  intro l
  induction l with
  | nil =>
    intro l' id0
    show lastWithId id0 l' = optOr (lastWithId id0 l') none
    cases lastWithId id0 l' <;> rfl
  | cons e rest ih =>
    intro l' id0
    show optOr (lastWithId id0 (rest ++ l'))
      (if e.id = id0 then some e else none) = _
    rw [ih]
    cases hl' : lastWithId id0 l' with
    | some x => rfl
    | none => rfl

/-- C10: when the loaded all-object array yields two valid entries with
the same id (`x` earlier, `y` later, with no occurrence of that id after
`y`), the whole enumeration keeps both in encounter order, the count
includes both, and lookup-by-id realises last-occurrence-wins — in
particular that id resolves to the later entry `y`, its by-id binding
having been overwritten by each subsequent occurrence. -/
theorem c10_duplicate_id_lookup (st : Store) (items : List JValue)
    (hobj : ∀ it ∈ items, isJObj it = true)
    (l1 l2 l3 : List SupportEntry) (x y : SupportEntry)
    (hsplit : items.filterMap (fun it => (mkSupportEntry it).toOption) =
      l1 ++ x :: l2 ++ y :: l3)
    (hxy : x.id = y.id)
    (hlast : ∀ z ∈ l3, z.id ≠ y.id) :
    get_all_entries (load_database (some (JValue.jarr items)) st).2 =
      l1 ++ x :: l2 ++ y :: l3 ∧
    get_entry_count (load_database (some (JValue.jarr items)) st).2 =
      (l1 ++ x :: l2 ++ y :: l3).length ∧
    (∀ id0, get_entry_by_id (load_database (some (JValue.jarr items)) st).2 id0
      = lastWithId id0 (l1 ++ x :: l2 ++ y :: l3)) ∧
    get_entry_by_id (load_database (some (JValue.jarr items)) st).2 y.id =
      some y := by
  have hload := loadItems_allObj items emptyStore hobj
  have h2 : (load_database (some (JValue.jarr items)) st).2.entries =
      l1 ++ x :: l2 ++ y :: l3 := by
    show (loadItems items emptyStore).2.entries = _
    rw [hload, entries_foldl_addEntry, hsplit]
    rfl
  have h3 : ∀ id0,
      get_entry_by_id (load_database (some (JValue.jarr items)) st).2 id0 =
        lastWithId id0 (l1 ++ x :: l2 ++ y :: l3) := by
    intro id0
    have hlu : get_entry_by_id (load_database (some (JValue.jarr items)) st).2
        id0 =
        optOr (lastWithId id0
          (items.filterMap (fun it => (mkSupportEntry it).toOption)))
          (get_entry_by_id emptyStore id0) := by
      show get_entry_by_id (loadItems items emptyStore).2 id0 = _
      rw [hload]
      exact get_entry_by_id_foldl _ emptyStore id0
    rw [hlu, hsplit]
    cases lastWithId id0 (l1 ++ x :: l2 ++ y :: l3) <;> rfl
  refine ⟨h2, ?_, h3, ?_⟩
  · show ((load_database (some (JValue.jarr items)) st).2.entries).length = _
    rw [h2]
  · rw [h3 y.id]
    have hassoc : l1 ++ x :: l2 ++ y :: l3 = (l1 ++ x :: l2) ++ y :: l3 := by
      simp
    rw [hassoc, lastWithId_append]
    show optOr
      (optOr (lastWithId y.id l3) (if y.id = y.id then some y else none))
      (lastWithId y.id (l1 ++ x :: l2)) = some y
    rw [lastWithId_eq_none l3 y.id hlast, if_pos rfl]
    rfl

/-- C10 witness: with the two concrete `dup-1` entries loaded in order,
lookup of `dup-1` returns the second entry while the count is 2. -/
theorem c10_duplicate_id_lookup_witness :
    get_entry_by_id
      (load_database (some (JValue.jarr [jdupA, jdupB])) emptyStore).2
      ("dup-1".toList) = some eDupB ∧
    get_entry_count
      (load_database (some (JValue.jarr [jdupA, jdupB])) emptyStore).2 = 2 :=
  ⟨(c10_duplicate_id_lookup emptyStore [jdupA, jdupB] (by decide)
      [] [] [] eDupA eDupB (by decide) (by decide) (by decide)).2.2.2,
   (c10_duplicate_id_lookup emptyStore [jdupA, jdupB] (by decide)
      [] [] [] eDupA eDupB (by decide) (by decide) (by decide)).2.1⟩

end WM
